import Mathlib

/-!
# fgrzl/river — `server/messages.go`

A shallow embedding of the wire messages of the river log service, of their
routes and of the JSON form of a transaction, followed by the properties the
specification states about them.

Conventions of the embedding.

* `uuid.UUID` is the sixteen-byte array of `github.com/google/uuid`; its
  `String` method is the canonical lower-case `8-4-4-4-12` hexadecimal form
  produced by that package's `encodeHex`.
* A Go method with a pointer receiver that allocates a reply is embedded as
  a function returning the receiver after the call together with the reply.
* `fmt.Sprintf("%T", a)` of a `*server.T` is the text `*server.T`; `%v` of a
  `uuid.UUID` is its `String()`.
* `json.Marshal` and `json.Unmarshal` are embedded for the one type they are
  called on, `struct { D []byte }` with the tag `json:"d"`: the scanner of
  `encoding/json` as a step function on bytes, `unquoteBytes`, the decoding of
  an object into the struct, and `base64.StdEncoding`.
* `EncodeTransaction` and `DecodeTransaction` are declared in another file of
  the package; the two JSON methods take them as parameters.
-/

namespace Server

/-! ## Bytes and UUIDs -/

/-- A Go `byte`. -/
abbrev Byte := Fin 256

/-- The type `uuid.UUID`, that is `[16]byte`. -/
structure UUID where
  bytes : List Byte
  size : bytes.length = 16
deriving DecidableEq

/-- The table `hextable` of `encoding/hex`. -/
def hextable : List Char :=
  ['0', '1', '2', '3', '4', '5', '6', '7', '8', '9', 'a', 'b', 'c', 'd', 'e', 'f']

/-- The character `hextable[n]`. -/
def hexDigit (n : Nat) : Char := hextable.getD n '0'

/-- The function `hex.Encode`: two lower-case digits per byte, high nibble first. -/
def hexEncode : List Byte → List Char
  | [] => []
  | b :: bs => hexDigit (b.val / 16) :: hexDigit (b.val % 16) :: hexEncode bs

/-- The Go slice expression `s[lo:hi]`. -/
def slice {α : Type} (s : List α) (lo hi : Nat) : List α := (s.drop lo).take (hi - lo)

/-- The function `encodeHex` of `github.com/google/uuid`: the five groups
`uuid[:4]`, `uuid[4:6]`, `uuid[6:8]`, `uuid[8:10]`, `uuid[10:]`, joined by `-`. -/
def encodeHex (u : List Byte) : List Char :=
  hexEncode (slice u 0 4) ++ '-' :: (hexEncode (slice u 4 6) ++ '-' ::
    (hexEncode (slice u 6 8) ++ '-' :: (hexEncode (slice u 8 10) ++ '-' ::
      hexEncode (slice u 10 16))))

/-- The method `uuid.UUID.String`. -/
def UUID.String (u : UUID) : String := ⟨encodeHex u.bytes⟩

/-- The type `lexkey.LexKey`, a byte slice. -/
abbrev LexKey := List Byte

/-! ## Client requests -/

structure GetStatus where
deriving DecidableEq

def GetStatus.GetRoute (_g : GetStatus) : String := "get_node_count"

structure ClusterStatus where
  NodeCount : Int
deriving DecidableEq

structure Peek where
  Space : String
  Segment : String
deriving DecidableEq

def Peek.GetRoute (_g : Peek) : String := "peek"

structure Produce where
  Space : String
  Segment : String
deriving DecidableEq

def Produce.GetRoute (_g : Produce) : String := "produce"

structure ConsumeSpace where
  Space : String
  MinTimestamp : Int
  MaxTimestamp : Int
  Offset : List Byte
deriving DecidableEq

def ConsumeSpace.GetRoute (_g : ConsumeSpace) : String := "consume_space"

structure ConsumeSegment where
  Space : String
  Segment : String
  MinSequence : Nat
  MinTimestamp : Int
  MaxSequence : Nat
  MaxTimestamp : Int
deriving DecidableEq

def ConsumeSegment.GetRoute (_g : ConsumeSegment) : String := "consume_segment"

/-! ## Data management -/

structure GetSpaces where
deriving DecidableEq

def GetSpaces.GetRoute (_g : GetSpaces) : String := "get_spaces"

structure GetSegments where
  Space : String
deriving DecidableEq

def GetSegments.GetRoute (_g : GetSegments) : String := "get_segments"

structure EnumerateSpace where
  Space : String
  MinTimestamp : Int
  MaxTimestamp : Int
  Offset : List Byte
deriving DecidableEq

def EnumerateSpace.GetRoute (_g : EnumerateSpace) : String := "enumerate_space"

structure EnumerateSegment where
  Space : String
  Segment : String
  MinSequence : Nat
  MinTimestamp : Int
  MaxSequence : Nat
  MaxTimestamp : Int
deriving DecidableEq

def EnumerateSegment.GetRoute (_g : EnumerateSegment) : String := "enumerate_segment"

/-! ## ACK and NACK -/

structure ACK where
  ID : UUID
  Node : UUID
deriving DecidableEq

structure NACK where
  ID : UUID
  Node : UUID
deriving DecidableEq

def GetReplyRoute (messageId : UUID) : String := "reply." ++ messageId.String

def ACK.GetRoute (a : ACK) : String := GetReplyRoute a.ID

def NACK.GetRoute (a : NACK) : String := GetReplyRoute a.ID

/-! ## Offset checks -/

structure CheckSpaceOffset where
  ID : UUID
  Node : UUID
  Space : String
  Offset : LexKey
deriving DecidableEq

def CheckSpaceOffset.GetRoute (_c : CheckSpaceOffset) : String := "check_space_offset"

def CheckSpaceOffset.ToACK (c : CheckSpaceOffset) (node : UUID) : CheckSpaceOffset × ACK :=
  (c, { ID := c.ID, Node := node })

def CheckSpaceOffset.ToNACK (c : CheckSpaceOffset) (node : UUID) : CheckSpaceOffset × NACK :=
  (c, { ID := c.ID, Node := node })

structure CheckSegmentOffset where
  ID : UUID
  Node : UUID
  Space : String
  Segment : String
  Offset : LexKey
deriving DecidableEq

def CheckSegmentOffset.GetRoute (_c : CheckSegmentOffset) : String := "check_segment_offset"

def CheckSegmentOffset.ToACK (c : CheckSegmentOffset) (node : UUID) :
    CheckSegmentOffset × ACK :=
  (c, { ID := c.ID, Node := node })

def CheckSegmentOffset.ToNACK (c : CheckSegmentOffset) (node : UUID) :
    CheckSegmentOffset × NACK :=
  (c, { ID := c.ID, Node := node })

/-! ## Transaction management -/

def UNCOMMITTED : String := "uncommitted"

def COMMITTED : String := "committed"

def FINALIZED : String := "finalized"

/-- The transaction status constants the package declares (its one `const` block). -/
def statusConstants : List String := [UNCOMMITTED, COMMITTED, FINALIZED]

structure TRX where
  ID : UUID
  Node : UUID
  Number : Nat
deriving DecidableEq

/-- The method `fmt.Sprintf("%T.%v", a, a.ID)` for `a : *TRX`. -/
def TRX.GetRoute (a : TRX) : String := "*server.TRX." ++ a.ID.String

def TRX.ToACK (a : TRX) (node : UUID) : TRX × ACK :=
  (a, { ID := a.ID, Node := node })

def TRX.ToNACK (a : TRX) (node : UUID) : TRX × NACK :=
  (a, { ID := a.ID, Node := node })

structure Commit where
  TRX : TRX
  Space : String
  Segment : String
deriving DecidableEq

def Commit.GetRoute (_a : Commit) : String := "trx.commit"

structure Reconcile where
  TRX : TRX
  Space : String
  Segment : String
deriving DecidableEq

def Reconcile.GetRoute (_a : Reconcile) : String := "trx.reconcile"

structure Rollback where
  TRX : TRX
  Space : String
  Segment : String
deriving DecidableEq

def Rollback.GetRoute (_a : Rollback) : String := "trx.rollback"

/-! ## Node management -/

structure Synchronize where
  OffsetsBySpace : List (String × LexKey)
deriving DecidableEq

def Synchronize.GetRoute (_a : Synchronize) : String := "node.synchronize"

structure QuorumChanged where
  Node : UUID
deriving DecidableEq

def QuorumChanged.GetRoute (_q : QuorumChanged) : String := "node.quorum_changed"

structure NodeHeartbeat where
  Node : UUID
deriving DecidableEq

def NodeHeartbeat.GetRoute (_h : NodeHeartbeat) : String := "node.healthcheck"

structure NodeShutdown where
  Node : UUID
deriving DecidableEq

def NodeShutdown.GetRoute (_n : NodeShutdown) : String := "node.shutdown"


/-! ## Reply routes -/

/-- An identifier used in the examples: `123e4567-e89b-12d3-a456-426614174000`. -/
def sampleID : UUID :=
  ⟨[0x12, 0x3e, 0x45, 0x67, 0xe8, 0x9b, 0x12, 0xd3, 0xa4, 0x56, 0x42, 0x66, 0x14, 0x17, 0x40, 0x00],
    rfl⟩

/-- A second identifier used in the examples: `00000000-0000-0000-0000-0000000000ff`. -/
def otherID : UUID := ⟨[0, 0, 0, 0, 0, 0, 0, 0, 0, 0, 0, 0, 0, 0, 0, 0xff], rfl⟩

/-! ## Errors -/

/-- Go `error` values, as far as this file tells them apart. -/
inductive GoError
  /-- A `*json.SyntaxError`. -/
  | syntaxError
  /-- A `*json.UnmarshalTypeError`. -/
  | unmarshalTypeError
  /-- A `base64.CorruptInputError`. -/
  | corruptInputError
  /-- The value `fmt.Errorf(msg)`. -/
  | errorf (msg : String)
  /-- The value `fmt.Errorf(msg + "%w", inner)`. -/
  | wrapf (msg : String) (inner : GoError)
  /-- An error produced by the transaction codec. -/
  | codec (code : Nat)
deriving DecidableEq

/-! ## Text as bytes -/

/-- The byte of an ASCII character. -/
def ch (c : Char) : Byte := Fin.ofNat c.toNat

/-- The bytes of an ASCII text. -/
def ascii (s : String) : List Byte := s.data.map ch

/-! ## `encoding/base64`, `StdEncoding` -/

/-- The alphabet `encodeStd`. -/
def encodeStd : List Byte :=
  ascii "ABCDEFGHIJKLMNOPQRSTUVWXYZabcdefghijklmnopqrstuvwxyz0123456789+/"

/-- The byte `enc.encode[i]`. -/
def base64Char (i : Nat) : Byte := encodeStd.getD i (ch 'A')

/-- The padding character `StdPadding`. -/
def padChar : Byte := ch '='

/-- The method `Encoding.Encode`: three source bytes give four characters;
a remainder of one or two bytes is padded. -/
def base64Encode : List Byte → List Byte
  | [] => []
  | [a] =>
    let val := a.val * 65536
    [base64Char (val / 262144 % 64), base64Char (val / 4096 % 64), padChar, padChar]
  | [a, b] =>
    let val := a.val * 65536 + b.val * 256
    [base64Char (val / 262144 % 64), base64Char (val / 4096 % 64),
      base64Char (val / 64 % 64), padChar]
  | a :: b :: c :: rest =>
    let val := a.val * 65536 + b.val * 256 + c.val
    base64Char (val / 262144 % 64) :: base64Char (val / 4096 % 64) ::
      base64Char (val / 64 % 64) :: base64Char (val % 64) :: base64Encode rest

/-- The table `enc.decodeMap`: the position of a character in the alphabet. -/
def decodeMap (c : Byte) : Option Nat :=
  if encodeStd.indexOf c < 64 then some (encodeStd.indexOf c) else none

/-- The quanta of `Encoding.Decode` on an input without `\r` and `\n`: four
characters give three bytes; padding is accepted only as `xx==` or `xxx=` at
the very end; any other character, and an incomplete quantum, is corrupt
input. -/
def decodeQuanta : List Byte → Option (List Byte)
  | [] => some []
  | c0 :: c1 :: c2 :: c3 :: rest =>
    match decodeMap c0, decodeMap c1, decodeMap c2, decodeMap c3 with
    | some s0, some s1, some s2, some s3 =>
      let val := s0 * 262144 + s1 * 4096 + s2 * 64 + s3
      (decodeQuanta rest).map fun tail =>
        Fin.ofNat (val / 65536) :: Fin.ofNat (val / 256) :: Fin.ofNat val :: tail
    | some s0, some s1, some s2, none =>
      let val := s0 * 262144 + s1 * 4096 + s2 * 64
      if c3 = padChar ∧ rest = [] then some [Fin.ofNat (val / 65536), Fin.ofNat (val / 256)]
      else none
    | some s0, some s1, none, _ =>
      let val := s0 * 262144 + s1 * 4096
      if c2 = padChar ∧ c3 = padChar ∧ rest = [] then some [Fin.ofNat (val / 65536)] else none
    | _, _, _, _ => none
  | _ => none

/-- The method `Encoding.Decode` (`none` is a `CorruptInputError`): carriage
returns and line feeds are skipped wherever they stand. -/
def base64Decode (src : List Byte) : Option (List Byte) :=
  decodeQuanta (src.filter fun c => !(c = ch '\n' || c = ch '\r'))

/-! ## `encoding/json`: values and string literals -/

/-- A JSON value as `encoding/json` reads it: strings and member names are
held unquoted, numbers as their literal. -/
inductive JSON
  | null
  | bool (b : Bool)
  | number (literal : List Byte)
  | string (s : List Byte)
  | array (elems : List JSON)
  | object (members : List (List Byte × JSON))

/-- The value of a hexadecimal digit, as `getu4` reads it. -/
def hexVal (c : Byte) : Option Nat :=
  if ch '0' ≤ c ∧ c ≤ ch '9' then some (c.val - 48)
  else if ch 'a' ≤ c ∧ c ≤ ch 'f' then some (c.val - 97 + 10)
  else if ch 'A' ≤ c ∧ c ≤ ch 'F' then some (c.val - 65 + 10)
  else none

/-- The function `getu4`: the value of the escape `\uXXXX` that starts the
text, `none` (Go returns `-1`) when the text does not start with one. -/
def getu4 : List Byte → Option Nat
  | b :: u :: h1 :: h2 :: h3 :: h4 :: _ =>
    if b = ch '\\' ∧ u = ch 'u' then
      match hexVal h1, hexVal h2, hexVal h3, hexVal h4 with
      | some x1, some x2, some x3, some x4 => some (((x1 * 16 + x2) * 16 + x3) * 16 + x4)
      | _, _, _, _ => none
    else none
  | _ => none

/-- The bytes of `utf8.EncodeRune`; surrogates and values beyond `U+10FFFF`
are written as `U+FFFD`. -/
def encodeRune (r : Nat) : List Byte :=
  if r < 0x80 then [Fin.ofNat r]
  else if r < 0x800 then [Fin.ofNat (0xC0 + r / 64), Fin.ofNat (0x80 + r % 64)]
  else if 0x10FFFF < r ∨ (0xD800 ≤ r ∧ r < 0xE000) then [0xEF, 0xBF, 0xBD]
  else if r < 0x10000 then
    [Fin.ofNat (0xE0 + r / 4096), Fin.ofNat (0x80 + r / 64 % 64), Fin.ofNat (0x80 + r % 64)]
  else
    [Fin.ofNat (0xF0 + r / 262144), Fin.ofNat (0x80 + r / 4096 % 64),
      Fin.ofNat (0x80 + r / 64 % 64), Fin.ofNat (0x80 + r % 64)]

/-- The predicate `utf16.IsSurrogate`. -/
def isSurrogate (r : Nat) : Bool := 0xD800 ≤ r && r < 0xE000

/-- The function `utf16.DecodeRune`; `none` stands for `U+FFFD`. -/
def utf16DecodeRune (r1 : Nat) (r2 : Option Nat) : Option Nat :=
  match r2 with
  | some r2 =>
    if 0xD800 ≤ r1 ∧ r1 < 0xDC00 ∧ 0xDC00 ≤ r2 ∧ r2 < 0xE000 then
      some ((r1 - 0xD800) * 1024 + (r2 - 0xDC00) + 0x10000)
    else none
  | none => none

/-- A UTF-8 continuation byte. -/
def isCont (c : Byte) : Bool := 0x80 ≤ c.val && c.val ≤ 0xBF

/-- The size `utf8.DecodeRune` reports at a byte `c ≥ 0x80` followed by
`rest`, when the encoding there is valid, and `0` when it is not. -/
def utf8Size (c : Byte) (rest : List Byte) : Nat :=
  let lo2 : Nat := if c.val = 0xE0 then 0xA0 else if c.val = 0xF0 then 0x90 else 0x80
  let hi2 : Nat := if c.val = 0xED then 0x9F else if c.val = 0xF4 then 0x8F else 0xBF
  if 0xC2 ≤ c.val ∧ c.val ≤ 0xDF then
    match rest with
    | b1 :: _ => if isCont b1 then 2 else 0
    | _ => 0
  else if 0xE0 ≤ c.val ∧ c.val ≤ 0xEF then
    match rest with
    | b1 :: b2 :: _ => if lo2 ≤ b1.val ∧ b1.val ≤ hi2 ∧ isCont b2 then 3 else 0
    | _ => 0
  else if 0xF0 ≤ c.val ∧ c.val ≤ 0xF4 then
    match rest with
    | b1 :: b2 :: b3 :: _ =>
      if lo2 ≤ b1.val ∧ b1.val ≤ hi2 ∧ isCont b2 ∧ isCont b3 then 4 else 0
    | _ => 0
  else 0

/-- One round of the loop of `unquoteBytes`, at the byte `c` followed by
`rest`: the bytes written, the number of bytes of `rest` the round consumes
without writing, and the number of bytes of `rest` it copies (the tail of a
valid multi-byte UTF-8 sequence). `none` is the failure return. -/
def unquoteAt (c : Byte) (rest : List Byte) : Option (List Byte × Nat × Nat) :=
  if c = ch '\\' then
    match rest with
    | [] => none
    | e :: _ =>
      if e = ch '"' ∨ e = ch '\\' ∨ e = ch '/' ∨ e = (39 : Byte) then some ([e], 1, 0)
      else if e = ch 'b' then some ([8], 1, 0)
      else if e = ch 'f' then some ([12], 1, 0)
      else if e = ch 'n' then some ([10], 1, 0)
      else if e = ch 'r' then some ([13], 1, 0)
      else if e = ch 't' then some ([9], 1, 0)
      else if e = ch 'u' then
        match getu4 (c :: rest) with
        | none => none
        | some rr =>
          if isSurrogate rr then
            match utf16DecodeRune rr (getu4 (rest.drop 5)) with
            | some dec => some (encodeRune dec, 11, 0)
            | none => some (encodeRune 0xFFFD, 5, 0)
          else some (encodeRune rr, 5, 0)
      else none
  else if c = ch '"' ∨ c.val < 0x20 then none
  else if c.val < 0x80 then some ([c], 0, 0)
  else if utf8Size c rest = 0 then some (encodeRune 0xFFFD, 0, 0)
  else some ([c], 0, utf8Size c rest - 1)

/-- The loop of `unquoteBytes`; `skip` and `copy` count the bytes the last
round still has to consume, respectively to copy. -/
def unquoteFrom : Nat → Nat → List Byte → Option (List Byte)
  | _, _, [] => some []
  | skip + 1, copy, _ :: rest => unquoteFrom skip copy rest
  | 0, copy + 1, c :: rest => (unquoteFrom 0 copy rest).map (c :: ·)
  | 0, 0, c :: rest =>
    match unquoteAt c rest with
    | none => none
    | some (out, skip, copy) => (unquoteFrom skip copy rest).map (out ++ ·)

/-- The function `unquoteBytes`, applied to the text between the quotes. -/
def unquoteBytes (s : List Byte) : Option (List Byte) := unquoteFrom 0 0 s

/-! ## `encoding/json`: the scanner -/

/-- An entry of the scanner's `parseState` stack, with what has been read of
the composite value it stands for (latest element first). -/
inductive Frame
  /-- The state `parseObjectKey`: reading a member name. -/
  | objectKey (members : List (List Byte × JSON))
  /-- The state `parseObjectValue`: reading the value of the member `key`. -/
  | objectValue (members : List (List Byte × JSON)) (key : List Byte)
  /-- The state `parseArrayValue`. -/
  | arrayValue (elems : List JSON)

/-- The scanner's `step` function, with the text read so far of the literal
in progress (latest byte first). -/
inductive Step
  | beginValueOrEmpty
  | beginValue
  | beginStringOrEmpty
  | beginString
  /-- The state `stateEndValue`, after the value `v`; also `stateEndTop`. -/
  | endValue (v : JSON)
  | inString (acc : List Byte)
  | inStringEsc (acc : List Byte)
  /-- The states `stateInStringEscU`, `...U1`, `...U12`, `...U123`. -/
  | inStringEscU (digits : Nat) (acc : List Byte)
  | neg (acc : List Byte)
  /-- The state `state1`. -/
  | int1 (acc : List Byte)
  /-- The state `state0`. -/
  | int0 (acc : List Byte)
  | dot (acc : List Byte)
  | dot0 (acc : List Byte)
  | exp (acc : List Byte)
  | expSign (acc : List Byte)
  | exp0 (acc : List Byte)
  /-- The states `stateT` ... `stateNul`: `rest` is still to be read of the literal `v`. -/
  | literal (rest : List Byte) (v : JSON)
  | error

/-- The scanner: the `parseState` stack and the `step` function. -/
structure Scanner where
  parseState : List Frame
  step : Step

/-- The constant `maxNestingDepth`. -/
def maxNestingDepth : Nat := 10000

/-- The function `isSpace`. -/
def isSpace (c : Byte) : Bool := c = ch ' ' || c = ch '\t' || c = ch '\r' || c = ch '\n'

/-- A decimal digit. -/
def isDigit (c : Byte) : Bool := decide (ch '0' ≤ c) && decide (c ≤ ch '9')

/-- The scanner after an error. -/
def Scanner.fail : Scanner := ⟨[], .error⟩

/-- The method `pushParseState`. -/
def pushParseState (ps : List Frame) (f : Frame) (next : Step) : Scanner :=
  if (f :: ps).length ≤ maxNestingDepth then ⟨f :: ps, next⟩ else Scanner.fail

/-- The function `stateEndValue` (and `stateEndTop` on an empty stack), after
the value `v`. -/
def stateEndValue (ps : List Frame) (v : JSON) (c : Byte) : Scanner :=
  if isSpace c then ⟨ps, .endValue v⟩
  else
    match ps with
    | [] => Scanner.fail
    | .objectKey ms :: rest =>
      if c = ch ':' then
        match v with
        | .string k => ⟨.objectValue ms k :: rest, .beginValue⟩
        | _ => Scanner.fail
      else Scanner.fail
    | .objectValue ms k :: rest =>
      if c = ch ',' then ⟨.objectKey ((k, v) :: ms) :: rest, .beginString⟩
      else if c = ch '}' then ⟨rest, .endValue (.object ((k, v) :: ms).reverse)⟩
      else Scanner.fail
    | .arrayValue es :: rest =>
      if c = ch ',' then ⟨.arrayValue (v :: es) :: rest, .beginValue⟩
      else if c = ch ']' then ⟨rest, .endValue (.array (v :: es).reverse)⟩
      else Scanner.fail

/-- The function `stateBeginValue`. -/
def stateBeginValue (ps : List Frame) (c : Byte) : Scanner :=
  if isSpace c then ⟨ps, .beginValue⟩
  else if c = ch '{' then pushParseState ps (.objectKey []) .beginStringOrEmpty
  else if c = ch '[' then pushParseState ps (.arrayValue []) .beginValueOrEmpty
  else if c = ch '"' then ⟨ps, .inString []⟩
  else if c = ch '-' then ⟨ps, .neg [c]⟩
  else if c = ch '0' then ⟨ps, .int0 [c]⟩
  else if c = ch 't' then ⟨ps, .literal (ascii "rue") (.bool true)⟩
  else if c = ch 'f' then ⟨ps, .literal (ascii "alse") (.bool false)⟩
  else if c = ch 'n' then ⟨ps, .literal (ascii "ull") .null⟩
  else if isDigit c then ⟨ps, .int1 [c]⟩
  else Scanner.fail

/-- The function `stateBeginString`. -/
def stateBeginString (ps : List Frame) (c : Byte) : Scanner :=
  if isSpace c then ⟨ps, .beginString⟩
  else if c = ch '"' then ⟨ps, .inString []⟩
  else Scanner.fail

/-- The function `state0`, also reached from `state1`. -/
def state0 (ps : List Frame) (acc : List Byte) (c : Byte) : Scanner :=
  if c = ch '.' then ⟨ps, .dot (c :: acc)⟩
  else if c = ch 'e' ∨ c = ch 'E' then ⟨ps, .exp (c :: acc)⟩
  else stateEndValue ps (.number acc.reverse) c

/-- The function `stateESign`, also reached from `stateE`. -/
def stateESign (ps : List Frame) (acc : List Byte) (c : Byte) : Scanner :=
  if isDigit c then ⟨ps, .exp0 (c :: acc)⟩ else Scanner.fail

/-- One call `s.step(s, c)` of the scanner. -/
def Scanner.next (s : Scanner) (c : Byte) : Scanner :=
  match s.step with
  | .beginValueOrEmpty =>
    if isSpace c then s
    else if c = ch ']' then
      match s.parseState with
      | .arrayValue _ :: rest => ⟨rest, .endValue (.array [])⟩
      | _ => Scanner.fail
    else stateBeginValue s.parseState c
  | .beginValue => stateBeginValue s.parseState c
  | .beginStringOrEmpty =>
    if isSpace c then s
    else if c = ch '}' then
      match s.parseState with
      | .objectKey _ :: rest => ⟨rest, .endValue (.object [])⟩
      | _ => Scanner.fail
    else stateBeginString s.parseState c
  | .beginString => stateBeginString s.parseState c
  | .endValue v => stateEndValue s.parseState v c
  | .inString acc =>
    if c = ch '"' then
      match unquoteBytes acc.reverse with
      | some str => ⟨s.parseState, .endValue (.string str)⟩
      | none => Scanner.fail
    else if c = ch '\\' then ⟨s.parseState, .inStringEsc (c :: acc)⟩
    else if c.val < 0x20 then Scanner.fail
    else ⟨s.parseState, .inString (c :: acc)⟩
  | .inStringEsc acc =>
    if c = ch 'b' ∨ c = ch 'f' ∨ c = ch 'n' ∨ c = ch 'r' ∨ c = ch 't' ∨ c = ch '\\' ∨
        c = ch '/' ∨ c = ch '"' then ⟨s.parseState, .inString (c :: acc)⟩
    else if c = ch 'u' then ⟨s.parseState, .inStringEscU 0 (c :: acc)⟩
    else Scanner.fail
  | .inStringEscU digits acc =>
    if (hexVal c).isSome then
      if digits < 3 then ⟨s.parseState, .inStringEscU (digits + 1) (c :: acc)⟩
      else ⟨s.parseState, .inString (c :: acc)⟩
    else Scanner.fail
  | .neg acc =>
    if c = ch '0' then ⟨s.parseState, .int0 (c :: acc)⟩
    else if isDigit c then ⟨s.parseState, .int1 (c :: acc)⟩
    else Scanner.fail
  | .int1 acc =>
    if isDigit c then ⟨s.parseState, .int1 (c :: acc)⟩ else state0 s.parseState acc c
  | .int0 acc => state0 s.parseState acc c
  | .dot acc => if isDigit c then ⟨s.parseState, .dot0 (c :: acc)⟩ else Scanner.fail
  | .dot0 acc =>
    if isDigit c then ⟨s.parseState, .dot0 (c :: acc)⟩
    else if c = ch 'e' ∨ c = ch 'E' then ⟨s.parseState, .exp (c :: acc)⟩
    else stateEndValue s.parseState (.number acc.reverse) c
  | .exp acc =>
    if c = ch '+' ∨ c = ch '-' then ⟨s.parseState, .expSign (c :: acc)⟩
    else stateESign s.parseState acc c
  | .expSign acc => stateESign s.parseState acc c
  | .exp0 acc =>
    if isDigit c then ⟨s.parseState, .exp0 (c :: acc)⟩
    else stateEndValue s.parseState (.number acc.reverse) c
  | .literal rest v =>
    match rest with
    | [x] => if c = x then ⟨s.parseState, .endValue v⟩ else Scanner.fail
    | x :: xs => if c = x then ⟨s.parseState, .literal xs v⟩ else Scanner.fail
    | [] => Scanner.fail
  | .error => Scanner.fail

/-- The scanner `checkValid` starts from (`scan.reset`). -/
def Scanner.reset : Scanner := ⟨[], .beginValue⟩

/-- The method `scanner.eof`: one more step on a space completes a number
at the top level; the text is valid when the top-level value is complete. -/
def Scanner.eof (s : Scanner) : Option JSON :=
  match s.next (ch ' ') with
  | ⟨[], .endValue v⟩ => some v
  | _ => none

/-- The value a JSON text stands for; `none` when `checkValid` reports a
`SyntaxError`. -/
def jsonParse (data : List Byte) : Option JSON := (data.foldl Scanner.next Scanner.reset).eof

/-! ## `encoding/json`: the wrapper `struct { D []byte "json:\"d\"" }` -/

/-- A Go `[]byte`: `nil`, or the elements together with what the backing
array holds beyond the length (zeroes at its end left out). -/
inductive Bytes
  | nil
  | slice (elems : List Byte) (spare : List Byte)
deriving DecidableEq

/-- The elements of a byte slice. -/
def Bytes.elems : Bytes → List Byte
  | .nil => []
  | .slice elems _ => elems

/-- The backing array of a byte slice, up to its capacity. -/
def Bytes.backing : Bytes → List Byte
  | .nil => []
  | .slice elems spare => elems ++ spare

/-- The Go expression `len(b)`. -/
def Bytes.len (b : Bytes) : Nat := b.elems.length

/-- The anonymous struct both JSON methods of `Transaction` declare. -/
structure Wrapper where
  D : Bytes
deriving DecidableEq

/-- How `json.Marshal` writes a `[]byte`: `null` for a nil slice, else the
base64 text in quotes. -/
def encodeByteSlice : Bytes → List Byte
  | .nil => ascii "null"
  | .slice elems _ => ch '"' :: (base64Encode elems ++ [ch '"'])

/-- The call `json.Marshal(wrapper)`; it has no error case for this type. -/
def jsonMarshal (w : Wrapper) : List Byte :=
  ascii "\x7b\"d\":" ++ (encodeByteSlice w.D ++ ascii "\x7d")

/-- Whether the decoder stores the member named `key` in the field tagged
`d`: the name is `d`, or equals it when case is ignored. -/
def matchesD (key : List Byte) : Bool := key = ascii "d" || key = ascii "D"

/-- The value of `strconv.ParseUint(literal, 10, 64)` when it fits a `uint8`. -/
def parseUint8 (literal : List Byte) : Option Byte :=
  if literal ≠ [] ∧ literal.all isDigit then
    let n := literal.foldl (fun acc c => acc * 10 + (c.val - 48)) 0
    if n < 256 then some (Fin.ofNat n) else none
  else none

/-- What decoding an array element into a `uint8` holding `old` leaves there,
and whether it saves an `UnmarshalTypeError`. -/
def storeElem (old : Byte) : JSON → Byte × Bool
  | .null => (old, false)
  | .number literal =>
    match parseUint8 literal with
    | some n => (n, false)
    | none => (old, true)
  | _ => (old, true)

/-- The elements an array leaves in a slice with the given backing array,
from index `i` on, and whether a type error was saved. -/
def storeElems (backing : List Byte) : Nat → List JSON → List Byte × Bool
  | _, [] => ([], false)
  | i, x :: xs =>
    let e := storeElem (backing.getD i 0) x
    let r := storeElems backing (i + 1) xs
    (e.1 :: r.1, e.2 || r.2)

/-- The decoder state: the field `D` of the target, and `d.savedError`. -/
structure DecodeState where
  D : Bytes
  savedError : Option GoError
deriving DecidableEq

/-- The method `decodeState.saveError`: the first error is kept. -/
def DecodeState.saveError (st : DecodeState) (e : GoError) : DecodeState :=
  match st.savedError with
  | none => { st with savedError := some e }
  | some _ => st

/-- Decoding one JSON value into the field `D`. -/
def DecodeState.storeD (st : DecodeState) : JSON → DecodeState
  | .null => { st with D := .nil }
  | .string s =>
    match base64Decode s with
    | some b => { st with D := .slice b [] }
    | none => st.saveError .corruptInputError
  | .array elems =>
    match elems with
    | [] => { st with D := .slice [] [] }
    | _ :: _ =>
      let r := storeElems st.D.backing 0 elems
      let st1 : DecodeState := { st with D := .slice r.1 (st.D.backing.drop elems.length) }
      if r.2 then st1.saveError .unmarshalTypeError else st1
  | .bool _ => st.saveError .unmarshalTypeError
  | .number _ => st.saveError .unmarshalTypeError
  | .object _ => st.saveError .unmarshalTypeError

/-- The method `decodeState.object` on the wrapper: the members are taken in
turn; one that matches the field is decoded into it, any other is skipped. -/
def decodeMembers (st : DecodeState) : List (List Byte × JSON) → DecodeState
  | [] => st
  | (key, v) :: rest => decodeMembers (if matchesD key then st.storeD v else st) rest

/-- The call `json.Unmarshal(data, &wrapper)`: the wrapper after the call and
the error returned. -/
def jsonUnmarshal (data : List Byte) (wrapper : Wrapper) : Wrapper × Option GoError :=
  match jsonParse data with
  | none => (wrapper, some .syntaxError)
  | some (.object members) =>
    let st := decodeMembers ⟨wrapper.D, none⟩ members
    (⟨st.D⟩, st.savedError)
  | some .null => (wrapper, none)
  | some _ => (wrapper, some .unmarshalTypeError)

/-! ## Transactions -/

/-- Modelled from the spec: the type `Entry`, declared outside
`messages.go`: "an opaque payload plus its assigned sequence number and
timestamp". -/
structure Entry where
  Payload : List Byte
  Sequence : Nat
  Timestamp : Int
deriving DecidableEq

/-- The type `Transaction`; `Entries` is a slice of pointers, `none` a nil pointer. -/
structure Transaction where
  TRX : TRX
  Space : String
  Segment : String
  FirstSequence : Nat
  LastSequence : Nat
  Entries : List (Option Entry)
  Timestamp : Int
deriving DecidableEq

/-- The method `fmt.Sprintf("%T", a)` for `a : *Transaction`. -/
def Transaction.GetRoute (_a : Transaction) : String := "*server.Transaction"

/-- The signature of `EncodeTransaction`, declared outside `messages.go`: the
bytes and the error it returns. -/
abbrev Encoder := Transaction → Bytes × Option GoError

/-- The signature of `DecodeTransaction`, declared outside `messages.go`: from
the payload and the target, the error it returns and the target afterwards. -/
abbrev Decoder := List Byte → Transaction → Option GoError × Transaction

/-- The method `Transaction.MarshalJSON`: the bytes (`none` is `nil`) and the error. -/
def Transaction.MarshalJSON (EncodeTransaction : Encoder) (t : Transaction) :
    Option (List Byte) × Option GoError :=
  match EncodeTransaction t with
  | (_, some err) => (none, some err)
  | (raw, none) =>
    let wrapper : Wrapper := { D := raw }
    (some (jsonMarshal wrapper), none)

/-- The outcome of `Transaction.UnmarshalJSON`: the error returned, the
receiver after the call, and the payloads `DecodeTransaction` was called with. -/
structure UnmarshalResult where
  err : Option GoError
  t : Transaction
  decodeCalls : List (List Byte)
deriving DecidableEq

/-- The method `Transaction.UnmarshalJSON`. -/
def Transaction.UnmarshalJSON (DecodeTransaction : Decoder) (t : Transaction)
    (data : List Byte) : UnmarshalResult :=
  match jsonUnmarshal data { D := .nil } with
  | (_, some err) => ⟨some (.wrapf "failed to unmarshal wrapper: " err), t, []⟩
  | (wrapper, none) =>
    if wrapper.D.len = 0 then ⟨some (.errorf "compressed data is empty"), t, []⟩
    else
      let r := DecodeTransaction wrapper.D.elems t
      ⟨r.1, r.2, [wrapper.D.elems]⟩

/-- The zero value `Transaction{}`. -/
def Transaction.zero : Transaction :=
  { TRX := ⟨⟨List.replicate 16 0, rfl⟩, ⟨List.replicate 16 0, rfl⟩, 0⟩, Space := "",
    Segment := "", FirstSequence := 0, LastSequence := 0, Entries := [], Timestamp := 0 }

/-- A byte of base64 text: printable ASCII, neither a quote, a backslash nor a line break. -/
def plainByte (c : Byte) : Prop :=
  c ≠ ch '\n' ∧ c ≠ ch '\r' ∧ c ≠ ch '"' ∧ c ≠ ch '\\' ∧ 0x20 ≤ c.val ∧ c.val < 0x80


/-! ## An example codec

`EncodeTransaction` and `DecodeTransaction` are declared in another file of
the package. The two JSON methods take them as parameters and the theorems
about the methods hold for every codec; the examples run them on the small
codec below, which says nothing about the one the package uses. -/

/-- An example encoder: the first sequence, the last sequence and the number
of entries, one byte each; it refuses a record without a space name. -/
def sampleEncoder : Encoder := fun t =>
  if t.Space = "" then (.nil, some (.codec 1))
  else (.slice [Fin.ofNat t.FirstSequence, Fin.ofNat t.LastSequence,
    Fin.ofNat t.Entries.length] [], none)

/-- An example decoder: it reads the three bytes of `sampleEncoder` into the
target and refuses a payload of any other length. -/
def sampleDecoder : Decoder := fun payload t =>
  match payload with
  | [first, last, count] =>
    (none, { t with FirstSequence := first.val, LastSequence := last.val,
                    Entries := List.replicate count.val none })
  | _ => (some (.codec 2), t)

/-- A record used in the examples: three entries on sequences 10 to 12. -/
def sampleTransaction : Transaction :=
  { TRX := ⟨sampleID, otherID, 7⟩, Space := "orders", Segment := "s1", FirstSequence := 10,
    LastSequence := 12, Entries := [none, none, none], Timestamp := 1700000000 }

/-- The keys of the `json` tags of the fields of `Transaction`. -/
def transactionFieldKeys : List String :=
  ["trx", "space", "segment", "first_sequence", "last_sequence", "entries", "timestamp"]

/-! ## Facts about strings and hexadecimal text -/

theorem hexDigit_inj (m n : Nat) (hm : m < 16) (hn : n < 16)
    (h : hexDigit m = hexDigit n) : m = n := by
  have key : ∀ a b : Fin 16, hexDigit a.val = hexDigit b.val → a = b := by decide
  exact congrArg Fin.val (key ⟨m, hm⟩ ⟨n, hn⟩ h)

theorem hexEncode_length (bs : List Byte) : (hexEncode bs).length = 2 * bs.length := by
  induction bs with
  | nil => rfl
  | cons b bs ih => simp only [hexEncode, List.length_cons, ih]; omega

theorem hexEncode_inj : ∀ (xs ys : List Byte), hexEncode xs = hexEncode ys → xs = ys
  | [], [], _ => rfl
  | [], _ :: _, h => by simp [hexEncode] at h
  | _ :: _, [], h => by simp [hexEncode] at h
  | x :: xs, y :: ys, h => by
    simp only [hexEncode, List.cons.injEq] at h
    obtain ⟨h1, h2, h3⟩ := h
    have hq := hexDigit_inj _ _ (by omega) (by omega) h1
    have hr := hexDigit_inj _ _ (Nat.mod_lt _ (by decide)) (Nat.mod_lt _ (by decide)) h2
    have hxy : x = y := Fin.ext (by omega)
    rw [hxy, hexEncode_inj xs ys h3]

theorem slice_length {α : Type} (s : List α) (lo hi : Nat) (h : hi ≤ s.length) :
    (slice s lo hi).length = hi - lo := by
  simp only [slice, List.length_take, List.length_drop]; omega

theorem slice_append_slice {α : Type} (s : List α) (a b c : Nat) (hab : a ≤ b) (hbc : b ≤ c) :
    slice s a b ++ slice s b c = slice s a c := by
  unfold slice
  have h1 : c - a = (b - a) + (c - b) := by omega
  have h2 : List.drop b s = List.drop (b - a) (List.drop a s) := by
    rw [List.drop_drop]; congr 1; omega
  rw [h1, h2, List.take_add]

theorem slice_full {α : Type} (s : List α) : slice s 0 s.length = s := by
  simp [slice]

theorem encodeHex_inj (u v : List Byte) (hu : u.length = 16) (hv : v.length = 16)
    (h : encodeHex u = encodeHex v) : u = v := by
  unfold encodeHex at h
  have l1 := List.append_inj h (by
    rw [hexEncode_length, hexEncode_length, slice_length u 0 4 (by omega),
      slice_length v 0 4 (by omega)])
  have h2 := List.cons.inj l1.2
  have l2 := List.append_inj h2.2 (by
    rw [hexEncode_length, hexEncode_length, slice_length u 4 6 (by omega),
      slice_length v 4 6 (by omega)])
  have h3 := List.cons.inj l2.2
  have l3 := List.append_inj h3.2 (by
    rw [hexEncode_length, hexEncode_length, slice_length u 6 8 (by omega),
      slice_length v 6 8 (by omega)])
  have h4 := List.cons.inj l3.2
  have l4 := List.append_inj h4.2 (by
    rw [hexEncode_length, hexEncode_length, slice_length u 8 10 (by omega),
      slice_length v 8 10 (by omega)])
  have h5 := List.cons.inj l4.2
  have e1 := hexEncode_inj _ _ l1.1
  have e2 := hexEncode_inj _ _ l2.1
  have e3 := hexEncode_inj _ _ l3.1
  have e4 := hexEncode_inj _ _ l4.1
  have e5 := hexEncode_inj _ _ h5.2
  have split : ∀ w : List Byte, w.length = 16 →
      w = slice w 0 4 ++ (slice w 4 6 ++ (slice w 6 8 ++ (slice w 8 10 ++ slice w 10 16))) := by
    intro w hw
    rw [slice_append_slice w 8 10 16 (by omega) (by omega),
      slice_append_slice w 6 8 16 (by omega) (by omega),
      slice_append_slice w 4 6 16 (by omega) (by omega),
      slice_append_slice w 0 4 16 (by omega) (by omega), ← hw, slice_full]
  rw [split u hu, split v hv, e1, e2, e3, e4, e5]

theorem UUID.String_inj (a b : UUID) (h : a.String = b.String) : a = b := by
  have hd : encodeHex a.bytes = encodeHex b.bytes := congrArg String.data h
  have hb := encodeHex_inj a.bytes b.bytes a.size b.size hd
  cases a; cases b; simp only [UUID.mk.injEq]; exact hb

theorem append_left_cancel (p x y : String) (h : p ++ x = p ++ y) : x = y := by
  have hd := congrArg String.data h
  simp only [String.data_append, List.append_cancel_left_eq] at hd
  exact String.ext hd

/-- A text that does not begin with `p` is not `p` followed by anything. -/
theorem ne_append_of_no_match (c p x : String) (h : p.data.isPrefixOf c.data = false) :
    c ≠ p ++ x := by
  intro e
  have hd : c.data = p.data ++ x.data := by rw [e, String.data_append]
  have : p.data.isPrefixOf c.data = true := by
    rw [ List.isPrefixOf_iff_prefix]; exact ⟨x.data, hd.symm⟩
  rw [h] at this
  exact Bool.false_ne_true this

/-- Two texts that begin with different characters are different. -/
theorem append_ne_append_of_head (p q x y : String)
    (h : p.data.head? ≠ q.data.head?) (hp : p.data ≠ []) (hq : q.data ≠ []) :
    p ++ x ≠ q ++ y := by
  intro e
  have hd := congrArg String.data e
  simp only [String.data_append] at hd
  have hh := congrArg List.head? hd
  rw [List.head?_append_of_ne_nil _ hp, List.head?_append_of_ne_nil _ hq] at hh
  exact h hh


/-! ## Facts about base64 -/

theorem decodeMap_base64Char (i : Nat) (h : i < 64) : decodeMap (base64Char i) = some i := by
  have key : ∀ j : Fin 64, decodeMap (base64Char j.val) = some j.val := by decide
  exact key ⟨i, h⟩

theorem decodeMap_padChar : decodeMap padChar = none := by decide

theorem plainByte_base64Char (i : Nat) (h : i < 64) : plainByte (base64Char i) := by
  have key : ∀ j : Fin 64, base64Char j.val ≠ ch '\n' ∧ base64Char j.val ≠ ch '\r' ∧
      base64Char j.val ≠ ch '"' ∧ base64Char j.val ≠ ch '\\' ∧
      0x20 ≤ (base64Char j.val).val ∧ (base64Char j.val).val < 0x80 := by decide
  exact key ⟨i, h⟩

theorem plainByte_padChar : plainByte padChar := by
  unfold plainByte; decide

theorem base64Encode_plain (raw : List Byte) : ∀ c ∈ base64Encode raw, plainByte c := by
  induction raw using base64Encode.induct with
  | case1 => intro c hc; simp [base64Encode] at hc
  | case2 a =>
    intro c hc
    simp only [base64Encode, List.mem_cons, List.mem_singleton, List.not_mem_nil, or_false] at hc
    rcases hc with rfl | rfl | rfl | rfl
    · exact plainByte_base64Char _ (Nat.mod_lt _ (by decide))
    · exact plainByte_base64Char _ (Nat.mod_lt _ (by decide))
    · exact plainByte_padChar
    · exact plainByte_padChar
  | case3 a b =>
    intro c hc
    simp only [base64Encode, List.mem_cons, List.mem_singleton, List.not_mem_nil, or_false] at hc
    rcases hc with rfl | rfl | rfl | rfl
    · exact plainByte_base64Char _ (Nat.mod_lt _ (by decide))
    · exact plainByte_base64Char _ (Nat.mod_lt _ (by decide))
    · exact plainByte_base64Char _ (Nat.mod_lt _ (by decide))
    · exact plainByte_padChar
  | case4 a b c rest ih =>
    intro x hx
    simp only [base64Encode, List.mem_cons] at hx
    rcases hx with rfl | rfl | rfl | rfl | hx
    · exact plainByte_base64Char _ (Nat.mod_lt _ (by decide))
    · exact plainByte_base64Char _ (Nat.mod_lt _ (by decide))
    · exact plainByte_base64Char _ (Nat.mod_lt _ (by decide))
    · exact plainByte_base64Char _ (Nat.mod_lt _ (by decide))
    · exact ih x hx

theorem ofNat_eq_of_mod (n : Nat) (a : Byte) (h : n % 256 = a.val) :
    (Fin.ofNat n : Byte) = a := by
  apply Fin.ext
  simp only [Fin.ofNat]
  exact h

theorem decodeQuanta_base64Encode (raw : List Byte) :
    decodeQuanta (base64Encode raw) = some raw := by
  induction raw using base64Encode.induct with
  | case1 => rfl
  | case2 a =>
    have ha := a.isLt
    simp only [base64Encode, decodeQuanta, decodeMap_base64Char _ (Nat.mod_lt _ (by decide : 0 < 64)),
      decodeMap_padChar, and_self, if_true]
    congr 2
    exact ofNat_eq_of_mod _ _ (by omega)
  | case3 a b =>
    have ha := a.isLt
    have hb := b.isLt
    simp only [base64Encode, decodeQuanta, decodeMap_base64Char _ (Nat.mod_lt _ (by decide : 0 < 64)),
      decodeMap_padChar, and_self, if_true]
    congr 2
    · exact ofNat_eq_of_mod _ _ (by omega)
    · congr 1
      exact ofNat_eq_of_mod _ _ (by omega)
  | case4 a b c rest ih =>
    have ha := a.isLt
    have hb := b.isLt
    have hc := c.isLt
    simp only [base64Encode, decodeQuanta, decodeMap_base64Char _ (Nat.mod_lt _ (by decide : 0 < 64)),
      ih, Option.map_some']
    congr 2
    · exact ofNat_eq_of_mod _ _ (by omega)
    · congr 1
      · exact ofNat_eq_of_mod _ _ (by omega)
      · congr 1
        exact ofNat_eq_of_mod _ _ (by omega)

theorem base64Decode_base64Encode (raw : List Byte) :
    base64Decode (base64Encode raw) = some raw := by
  unfold base64Decode
  rw [List.filter_eq_self.mpr, decodeQuanta_base64Encode]
  intro c hc
  have h := base64Encode_plain raw c hc
  simp [h.1, h.2.1]

/-! ## Facts about the scanner on the text `json.Marshal` writes -/

theorem unquoteAt_plain (c : Byte) (rest : List Byte) (h : plainByte c) :
    unquoteAt c rest = some ([c], 0, 0) := by
  obtain ⟨-, -, h3, h4, h5, h6⟩ := h
  have h5' : ¬ c.val < 0x20 := by omega
  simp only [unquoteAt, h4, h3, h5', h6, if_false, if_true, or_self]

theorem unquoteFrom_plain (s : List Byte) (h : ∀ c ∈ s, plainByte c) :
    unquoteFrom 0 0 s = some s := by
  induction s with
  | nil => rfl
  | cons c rest ih =>
    have hc := h c (List.mem_cons_self _ _)
    have hr := ih fun x hx => h x (List.mem_cons_of_mem _ hx)
    simp only [unquoteFrom, unquoteAt_plain c rest hc, hr, Option.map_some', List.singleton_append]

theorem next_inString_plain (ps : List Frame) (acc : List Byte) (c : Byte) (h : plainByte c) :
    Scanner.next ⟨ps, .inString acc⟩ c = ⟨ps, .inString (c :: acc)⟩ := by
  obtain ⟨-, -, h3, h4, h5, -⟩ := h
  have h5' : ¬ c.val < 0x20 := by omega
  simp only [Scanner.next, h3, h4, h5', if_false]

theorem foldl_inString_plain (ps : List Frame) (s : List Byte) :
    ∀ (acc : List Byte), (∀ c ∈ s, plainByte c) →
      s.foldl Scanner.next ⟨ps, .inString acc⟩ = ⟨ps, .inString (s.reverse ++ acc)⟩ := by
  induction s with
  | nil => intro acc _; rfl
  | cons c rest ih =>
    intro acc h
    rw [List.foldl_cons, next_inString_plain ps acc c (h c (List.mem_cons_self _ _)),
      ih (c :: acc) fun x hx => h x (List.mem_cons_of_mem _ hx)]
    simp

/-- The scanner reads a quoted text of plain bytes after `{"d":` and before `}`
as an object with the one member `d`. -/
theorem jsonParse_wrapper_string (s : List Byte) (h : ∀ c ∈ s, plainByte c) :
    jsonParse (ascii "\x7b\"d\":" ++ ((ch '"' :: (s ++ [ch '"'])) ++ ascii "\x7d")) =
      some (.object [(ascii "d", .string s)]) := by
  have h1 : (ascii "\x7b\"d\":" ++ [ch '"']).foldl Scanner.next Scanner.reset =
      ⟨[.objectValue [] (ascii "d")], .inString []⟩ := rfl
  have e : ascii "\x7b\"d\":" ++ ((ch '"' :: (s ++ [ch '"'])) ++ ascii "\x7d") =
      (ascii "\x7b\"d\":" ++ [ch '"']) ++ (s ++ ([ch '"'] ++ ascii "\x7d")) := by simp
  unfold jsonParse
  rw [e, List.foldl_append, h1, List.foldl_append, foldl_inString_plain _ s [] h]
  have h2 : ascii "\x7d" = [ch '}'] := rfl
  simp only [h2, List.append_nil, List.singleton_append, List.foldl_cons, List.foldl_nil]
  have h3 : Scanner.next ⟨[.objectValue [] (ascii "d")], .inString s.reverse⟩ (ch '"') =
      ⟨[.objectValue [] (ascii "d")], .endValue (.string s)⟩ := by
    simp only [Scanner.next, if_true, List.reverse_reverse, unquoteBytes, unquoteFrom_plain s h]
  rw [h3]
  rfl

theorem jsonParse_wrapper_null :
    jsonParse (ascii "\x7b\"d\":" ++ (ascii "null" ++ ascii "\x7d")) =
      some (.object [(ascii "d", .null)]) := rfl

/-! ## Facts about decoding the wrapper -/

/-- The field `D` is empty after the members have been decoded when the last
member stored in it is `null` or a string that decodes to no bytes, or, with
no such member, when it was empty before. -/
theorem decodeMembers_last (members : List (List Byte × JSON)) :
    ∀ (st : DecodeState),
      (match (members.filter fun m => matchesD m.1).getLast? with
        | none => st.D.len = 0
        | some m => m.2 = .null ∨ ∃ s, m.2 = .string s ∧ base64Decode s = some []) →
      (decodeMembers st members).D.len = 0 := by
  induction members with
  | nil => intro st h; exact h
  | cons m rest ih =>
    intro st h
    obtain ⟨key, v⟩ := m
    unfold decodeMembers
    apply ih
    by_cases hk : matchesD key = true
    · rw [if_pos hk]
      rw [List.filter_cons_of_pos (by simpa using hk)] at h
      cases hrest : (rest.filter fun m => matchesD m.1) with
      | nil =>
        rw [hrest] at h
        simp only [List.getLast?_singleton] at h
        simp only [List.getLast?_nil]
        rcases h with hv | ⟨s, hv, hs⟩
        · subst hv
          rfl
        · subst hv
          simp only [DecodeState.storeD, hs]
          rfl
      | cons a l =>
        rw [hrest, List.getLast?_cons_cons] at h
        exact h
    · rw [if_neg hk]
      rw [List.filter_cons_of_neg (by simpa using hk)] at h
      exact h

/-- Members that do not match the field leave the decoder state as it was. -/
theorem decodeMembers_unmatched (members : List (List Byte × JSON)) (st : DecodeState)
    (hno : ∀ m ∈ members, matchesD m.1 = false) : decodeMembers st members = st := by
  induction members with
  | nil => rfl
  | cons m rest ih =>
    obtain ⟨key, v⟩ := m
    have hk : matchesD key = false := hno (key, v) (List.mem_cons_self _ _)
    unfold decodeMembers
    simp only [hk, Bool.false_eq_true, if_false]
    exact ih fun x hx => hno x (List.mem_cons_of_mem _ hx)

theorem decodeCalls_nonempty (DecodeTransaction : Decoder) (t : Transaction) (data : List Byte) :
    ∀ p ∈ (t.UnmarshalJSON DecodeTransaction data).decodeCalls, p ≠ [] := by
  intro p hp
  unfold Transaction.UnmarshalJSON at hp
  split at hp
  · simp at hp
  · split at hp
    · simp at hp
    · rename_i wrapper _ hlen
      simp only [List.mem_singleton] at hp
      subst hp
      intro hnil
      exact hlen (by simp [Bytes.len, hnil])

/-- What `UnmarshalJSON` does on the text `MarshalJSON` writes for the payload `raw`. -/
theorem unmarshal_jsonMarshal (DecodeTransaction : Decoder) (t : Transaction) (raw : Bytes) :
    t.UnmarshalJSON DecodeTransaction (jsonMarshal ⟨raw⟩) =
      if raw.elems = [] then ⟨some (.errorf "compressed data is empty"), t, []⟩
      else ⟨(DecodeTransaction raw.elems t).1, (DecodeTransaction raw.elems t).2, [raw.elems]⟩ := by
  cases raw with
  | nil =>
    simp only [Transaction.UnmarshalJSON, jsonUnmarshal, jsonMarshal, encodeByteSlice,
      jsonParse_wrapper_null, decodeMembers, matchesD, DecodeState.storeD]
    rfl
  | slice elems spare =>
    simp only [Transaction.UnmarshalJSON, jsonUnmarshal, jsonMarshal, encodeByteSlice,
      jsonParse_wrapper_string _ (base64Encode_plain elems), decodeMembers, matchesD,
      DecodeState.storeD, base64Decode_base64Encode, Bytes.len, Bytes.elems, Bool.true_or,
      decide_True, if_true, List.length_eq_zero]

/-! ## Examples of decoding the wrapper -/

/-- Of two members named `d`, the later one decides. -/
theorem unmarshal_repeated_key :
    (Transaction.zero.UnmarshalJSON sampleDecoder
      (ascii "\x7b\"d\":\"\",\"d\":\"CgwD\"\x7d")).decodeCalls = [[10, 12, 3]] ∧
    (Transaction.zero.UnmarshalJSON sampleDecoder
      (ascii "\x7b\"d\":\"CgwD\",\"d\":\"\"\x7d")).decodeCalls = [] := by
  decide

/-- The three shapes of an empty field `d`, and inputs that are no object or no JSON. -/
theorem unmarshal_empty_shapes :
    (sampleTransaction.UnmarshalJSON sampleDecoder (ascii "\x7b\x7d")) =
      ⟨some (.errorf "compressed data is empty"), sampleTransaction, []⟩ ∧
    (sampleTransaction.UnmarshalJSON sampleDecoder (ascii "\x7b\"d\":null\x7d")) =
      ⟨some (.errorf "compressed data is empty"), sampleTransaction, []⟩ ∧
    (sampleTransaction.UnmarshalJSON sampleDecoder (ascii "\x7b\"d\":\"\"\x7d")) =
      ⟨some (.errorf "compressed data is empty"), sampleTransaction, []⟩ ∧
    (sampleTransaction.UnmarshalJSON sampleDecoder (ascii "null")) =
      ⟨some (.errorf "compressed data is empty"), sampleTransaction, []⟩ ∧
    (sampleTransaction.UnmarshalJSON sampleDecoder (ascii "[]")) =
      ⟨some (.wrapf "failed to unmarshal wrapper: " .unmarshalTypeError), sampleTransaction, []⟩ ∧
    (sampleTransaction.UnmarshalJSON sampleDecoder (ascii "\x7b\"d\":")) =
      ⟨some (.wrapf "failed to unmarshal wrapper: " .syntaxError), sampleTransaction, []⟩ ∧
    (sampleTransaction.UnmarshalJSON sampleDecoder (ascii "\x7b\"d\":\"Cgw\"\x7d")) =
      ⟨some (.wrapf "failed to unmarshal wrapper: " .corruptInputError), sampleTransaction, []⟩ := by
  decide

/-! ## Routes: the claims -/

/-- C1: `GetReplyRoute id` is the text `reply.` followed by `id.String()`, the
canonical form of the identifier (shown on a sample identifier); the route of
every ACK and of every NACK is `GetReplyRoute` of its `ID`, so it is the same
whatever the `Node` field holds and whether the reply is an ACK or a NACK. -/
theorem reply_route_of_id (id node : UUID) (a : ACK) (n : NACK) :
    GetReplyRoute id = "reply." ++ id.String ∧
    GetReplyRoute sampleID = "reply.123e4567-e89b-12d3-a456-426614174000" ∧
    a.GetRoute = GetReplyRoute a.ID ∧
    n.GetRoute = GetReplyRoute n.ID ∧
    ACK.GetRoute { a with Node := node } = a.GetRoute ∧
    NACK.GetRoute { n with Node := node } = n.GetRoute ∧
    NACK.GetRoute { ID := a.ID, Node := node } = a.GetRoute :=
  ⟨rfl, by decide, rfl, rfl, rfl, rfl, rfl⟩

/-- C2: for a request of kind CheckSpaceOffset, CheckSegmentOffset or TRX and a
node identifier `n`, `ToACK n` and `ToNACK n` produce an ACK, respectively a
NACK, whose `ID` is the request's `ID` and whose `Node` is the argument `n`
(it equals the request's own `Node` only when `n` does); the request is
returned unchanged. -/
theorem reply_echoes_id_and_responder (c : CheckSpaceOffset) (s : CheckSegmentOffset)
    (x : TRX) (n : UUID) :
    ((c.ToACK n).2.ID = c.ID ∧ (c.ToACK n).2.Node = n ∧ (c.ToACK n).1 = c ∧
      (c.ToNACK n).2.ID = c.ID ∧ (c.ToNACK n).2.Node = n ∧ (c.ToNACK n).1 = c) ∧
    ((s.ToACK n).2.ID = s.ID ∧ (s.ToACK n).2.Node = n ∧ (s.ToACK n).1 = s ∧
      (s.ToNACK n).2.ID = s.ID ∧ (s.ToNACK n).2.Node = n ∧ (s.ToNACK n).1 = s) ∧
    ((x.ToACK n).2.ID = x.ID ∧ (x.ToACK n).2.Node = n ∧ (x.ToACK n).1 = x ∧
      (x.ToNACK n).2.ID = x.ID ∧ (x.ToNACK n).2.Node = n ∧ (x.ToNACK n).1 = x) ∧
    (((c.ToACK n).2.Node = c.Node ↔ n = c.Node) ∧
      ((s.ToNACK n).2.Node = s.Node ↔ n = s.Node) ∧
      ((x.ToACK n).2.Node = x.Node ↔ n = x.Node)) :=
  ⟨⟨rfl, rfl, rfl, rfl, rfl, rfl⟩, ⟨rfl, rfl, rfl, rfl, rfl, rfl⟩,
    ⟨rfl, rfl, rfl, rfl, rfl, rfl⟩, ⟨Iff.rfl, Iff.rfl, Iff.rfl⟩⟩

/-- C3: `GetReplyRoute` is injective; hence the replies, ACK or NACK, to two
requests with different identifiers have different routes, whatever the
responding nodes are. -/
theorem reply_route_injective :
    (∀ a b : UUID, GetReplyRoute a = GetReplyRoute b → a = b) ∧
    (∀ a b na nb : UUID, a ≠ b →
      ACK.GetRoute ⟨a, na⟩ ≠ ACK.GetRoute ⟨b, nb⟩ ∧
      ACK.GetRoute ⟨a, na⟩ ≠ NACK.GetRoute ⟨b, nb⟩ ∧
      NACK.GetRoute ⟨a, na⟩ ≠ ACK.GetRoute ⟨b, nb⟩ ∧
      NACK.GetRoute ⟨a, na⟩ ≠ NACK.GetRoute ⟨b, nb⟩) := by
  have inj : ∀ a b : UUID, GetReplyRoute a = GetReplyRoute b → a = b := fun a b h =>
    UUID.String_inj a b (append_left_cancel "reply." _ _ h)
  refine ⟨inj, fun a b na nb hab => ?_⟩
  have hne : GetReplyRoute a ≠ GetReplyRoute b := fun h => hab (inj a b h)
  exact ⟨hne, hne, hne, hne⟩

/-- Witness of C3 on two concrete identifiers and one responding node. -/
theorem reply_route_injective_witness :
    sampleID ≠ otherID ∧
    ACK.GetRoute ⟨sampleID, otherID⟩ ≠ NACK.GetRoute ⟨otherID, otherID⟩ :=
  ⟨by decide, (reply_route_injective.2 sampleID otherID otherID otherID (by decide)).2.1⟩

/-- C6: the typed coordination messages resolve to constant routes, whatever
their field values are. -/
theorem coordination_routes_constant (c : Commit) (r : Rollback) (e : Reconcile)
    (q : QuorumChanged) (h : NodeHeartbeat) (d : NodeShutdown) (s : Synchronize) :
    c.GetRoute = "trx.commit" ∧ r.GetRoute = "trx.rollback" ∧
    e.GetRoute = "trx.reconcile" ∧ q.GetRoute = "node.quorum_changed" ∧
    h.GetRoute = "node.healthcheck" ∧ d.GetRoute = "node.shutdown" ∧
    s.GetRoute = "node.synchronize" :=
  ⟨rfl, rfl, rfl, rfl, rfl, rfl, rfl⟩

/-- C7, as stated, fails: the package declares three status constants, so no
four pairwise distinct status values can be picked among them, and no
constant has a value naming the rolled-back status. -/
theorem no_four_status_constants :
    statusConstants.length = 3 ∧
    (¬ ∃ a ∈ statusConstants, ∃ b ∈ statusConstants, ∃ c ∈ statusConstants,
      ∃ d ∈ statusConstants, a ≠ b ∧ a ≠ c ∧ a ≠ d ∧ b ≠ c ∧ b ≠ d ∧ c ≠ d) ∧
    "rolled-back" ∉ statusConstants ∧ "rolled_back" ∉ statusConstants ∧
    "rolledback" ∉ statusConstants := by
  decide

/-- C7, amended: the status constants are exactly `UNCOMMITTED`, `COMMITTED`
and `FINALIZED`, with the values `uncommitted`, `committed` and `finalized`,
pairwise distinct. -/
theorem status_constants_distinct :
    statusConstants = [UNCOMMITTED, COMMITTED, FINALIZED] ∧
    UNCOMMITTED = "uncommitted" ∧ COMMITTED = "committed" ∧ FINALIZED = "finalized" ∧
    UNCOMMITTED ≠ COMMITTED ∧ UNCOMMITTED ≠ FINALIZED ∧ COMMITTED ≠ FINALIZED ∧
    statusConstants.Nodup := by
  decide

/-! ## The wire form of transactions: the claims -/

/-- C4, as stated, fails: the text `{"D":"CgwD"}` parses as a JSON object with
one member, named `D`, so a member named `d` is absent; yet `UnmarshalJSON`,
whatever `DecodeTransaction` is, calls it with the three bytes the member
holds and returns its result, which is no error when the call succeeds. -/
theorem unmarshal_accepts_upper_case_member :
    jsonParse (ascii "\x7b\"D\":\"CgwD\"\x7d") =
      some (.object [(ascii "D", .string (ascii "CgwD"))]) ∧
    (∀ m ∈ [(ascii "D", JSON.string (ascii "CgwD"))], m.1 ≠ ascii "d") ∧
    (∀ (DecodeTransaction : Decoder) (t : Transaction),
      t.UnmarshalJSON DecodeTransaction (ascii "\x7b\"D\":\"CgwD\"\x7d") =
        ⟨(DecodeTransaction [10, 12, 3] t).1, (DecodeTransaction [10, 12, 3] t).2,
          [[10, 12, 3]]⟩) ∧
    (Transaction.zero.UnmarshalJSON (fun _ t => (none, t))
      (ascii "\x7b\"D\":\"CgwD\"\x7d")).err = none :=
  ⟨rfl, by decide, fun _ _ => rfl, rfl⟩

/-- C4, amended: the field `d` of the wrapper receives every member named `d`
or `D`, in turn. When the input parses as a JSON object that has no such
member, or whose last such member is `null` or a string that decodes to no
bytes, `UnmarshalJSON` returns an error (that the data is empty, or the error
of `json.Unmarshal` on an earlier member), calls `DecodeTransaction` not at
all and leaves the receiver unchanged; and on whatever input,
`DecodeTransaction` is only ever called with a non-empty payload. -/
theorem unmarshal_rejects_empty_payload (DecodeTransaction : Decoder) (t : Transaction)
    (data : List Byte) (members : List (List Byte × JSON))
    (hparse : jsonParse data = some (.object members))
    (hd : ∀ m, (members.filter fun m => matchesD m.1).getLast? = some m →
      m.2 = .null ∨ ∃ s, m.2 = .string s ∧ base64Decode s = some []) :
    ((t.UnmarshalJSON DecodeTransaction data).err = some (.errorf "compressed data is empty") ∨
      ∃ e, (t.UnmarshalJSON DecodeTransaction data).err =
        some (.wrapf "failed to unmarshal wrapper: " e)) ∧
    (t.UnmarshalJSON DecodeTransaction data).t = t ∧
    (t.UnmarshalJSON DecodeTransaction data).decodeCalls = [] ∧
    ((∀ m ∈ members, matchesD m.1 = false) →
      t.UnmarshalJSON DecodeTransaction data =
        ⟨some (.errorf "compressed data is empty"), t, []⟩) ∧
    ∀ (t1 : Transaction) (data1 : List Byte),
      ∀ p ∈ (t1.UnmarshalJSON DecodeTransaction data1).decodeCalls, p ≠ [] := by
  have hlen : (decodeMembers ⟨.nil, none⟩ members).D.len = 0 := by
    apply decodeMembers_last
    cases hl : (members.filter fun m => matchesD m.1).getLast? with
    | none => rfl
    | some m => exact hd m hl
  have habsent : (∀ m ∈ members, matchesD m.1 = false) →
      decodeMembers ⟨.nil, none⟩ members = ⟨.nil, none⟩ :=
    decodeMembers_unmatched members ⟨.nil, none⟩
  refine ⟨?_, ?_, ?_, ?_, fun t1 data1 => decodeCalls_nonempty DecodeTransaction t1 data1⟩
  · simp only [Transaction.UnmarshalJSON, jsonUnmarshal, hparse]
    split
    · exact Or.inr ⟨_, rfl⟩
    · rename_i wrapper heq
      simp only [Prod.mk.injEq] at heq
      have hw : wrapper.D.len = 0 := by rw [← heq.1]; exact hlen
      rw [if_pos hw]
      exact Or.inl rfl
  · simp only [Transaction.UnmarshalJSON, jsonUnmarshal, hparse]
    split
    · rfl
    · rename_i wrapper heq
      simp only [Prod.mk.injEq] at heq
      have hw : wrapper.D.len = 0 := by rw [← heq.1]; exact hlen
      rw [if_pos hw]
  · simp only [Transaction.UnmarshalJSON, jsonUnmarshal, hparse]
    split
    · rfl
    · rename_i wrapper heq
      simp only [Prod.mk.injEq] at heq
      have hw : wrapper.D.len = 0 := by rw [← heq.1]; exact hlen
      rw [if_pos hw]
  · intro hno
    simp only [Transaction.UnmarshalJSON, jsonUnmarshal, hparse, habsent hno]
    rfl

/-- Witness of C4, amended: an object with an unrelated member and two
members named `d`, the later one `null`. -/
theorem unmarshal_rejects_empty_payload_witness :
    jsonParse (ascii "\x7b\"x\":[1,2],\"d\":\"CgwD\",\"d\":null\x7d") =
      some (.object [(ascii "x", .array [.number (ascii "1"), .number (ascii "2")]),
        (ascii "d", .string (ascii "CgwD")), (ascii "d", .null)]) ∧
    (sampleTransaction.UnmarshalJSON sampleDecoder
      (ascii "\x7b\"x\":[1,2],\"d\":\"CgwD\",\"d\":null\x7d")).t = sampleTransaction ∧
    (sampleTransaction.UnmarshalJSON sampleDecoder
      (ascii "\x7b\"x\":[1,2],\"d\":\"CgwD\",\"d\":null\x7d")).decodeCalls = [] :=
  ⟨rfl, ((unmarshal_rejects_empty_payload sampleDecoder sampleTransaction
    (ascii "\x7b\"x\":[1,2],\"d\":\"CgwD\",\"d\":null\x7d")
    [(ascii "x", .array [.number (ascii "1"), .number (ascii "2")]),
      (ascii "d", .string (ascii "CgwD")), (ascii "d", .null)] rfl
    (by
      intro m hm
      have hf : (List.filter (fun m : List Byte × JSON => matchesD m.1)
          [(ascii "x", .array [.number (ascii "1"), .number (ascii "2")]),
            (ascii "d", .string (ascii "CgwD")), (ascii "d", .null)]).getLast? =
          some (ascii "d", .null) := rfl
      rw [hf] at hm
      cases hm
      exact Or.inl rfl)).2).1,
    ((unmarshal_rejects_empty_payload sampleDecoder sampleTransaction
    (ascii "\x7b\"x\":[1,2],\"d\":\"CgwD\",\"d\":null\x7d")
    [(ascii "x", .array [.number (ascii "1"), .number (ascii "2")]),
      (ascii "d", .string (ascii "CgwD")), (ascii "d", .null)] rfl
    (by
      intro m hm
      have hf : (List.filter (fun m : List Byte × JSON => matchesD m.1)
          [(ascii "x", .array [.number (ascii "1"), .number (ascii "2")]),
            (ascii "d", .string (ascii "CgwD")), (ascii "d", .null)]).getLast? =
          some (ascii "d", .null) := rfl
      rw [hf] at hm
      cases hm
      exact Or.inl rfl)).2).2.1⟩

/-- C5: when `EncodeTransaction t` returns the bytes `raw` without error,
`MarshalJSON` returns, without error, the text of a JSON object with exactly
one member, named `d`, whose value is `raw` as a JSON byte string (its base64
text, which decodes back to `raw`; `null` for a nil slice), so none of the
field names of `Transaction` is a key of it; when `EncodeTransaction t`
returns an error, `MarshalJSON` returns that error and no bytes. -/
theorem marshal_wraps_payload (EncodeTransaction : Encoder) (t : Transaction) :
    (∀ raw : Bytes, EncodeTransaction t = (raw, none) →
      ∃ out members,
        t.MarshalJSON EncodeTransaction = (some out, none) ∧
        jsonParse out = some (.object members) ∧
        members = [(ascii "d", match raw with
          | .nil => JSON.null
          | .slice elems _ => JSON.string (base64Encode elems))] ∧
        (∀ elems spare, raw = .slice elems spare →
          out = ascii "\x7b\"d\":\"" ++ base64Encode elems ++ ascii "\"\x7d" ∧
          base64Decode (base64Encode elems) = some elems) ∧
        (∀ k ∈ transactionFieldKeys, ∀ m ∈ members, m.1 ≠ ascii k)) ∧
    (∀ (raw : Bytes) (err : GoError), EncodeTransaction t = (raw, some err) →
      t.MarshalJSON EncodeTransaction = (none, some err)) := by
  constructor
  · intro raw h
    refine ⟨jsonMarshal ⟨raw⟩, _, ?_, ?_, rfl, ?_, ?_⟩
    · simp only [Transaction.MarshalJSON, h]
    · cases raw with
      | nil => exact jsonParse_wrapper_null
      | slice elems spare =>
        exact jsonParse_wrapper_string _ (base64Encode_plain elems)
    · intro elems spare hraw
      subst hraw
      refine ⟨?_, base64Decode_base64Encode elems⟩
      simp only [jsonMarshal, encodeByteSlice]
      have e1 : ascii "\x7b\"d\":\"" = ascii "\x7b\"d\":" ++ [ch '"'] := rfl
      have e2 : ascii "\"\x7d" = [ch '"'] ++ ascii "\x7d" := rfl
      rw [e1, e2]
      simp
    · intro k hk m hm
      simp only [List.mem_singleton] at hm
      subst hm
      show ascii "d" ≠ ascii k
      revert k
      decide
  · intro raw err h
    simp only [Transaction.MarshalJSON, h]

/-- Witness of C5: the example encoder accepts the example record and
refuses the zero record. -/
theorem marshal_wraps_payload_witness :
    sampleEncoder sampleTransaction = (.slice [10, 12, 3] [], none) ∧
    sampleTransaction.MarshalJSON sampleEncoder = (some (ascii "\x7b\"d\":\"CgwD\"\x7d"), none) ∧
    sampleEncoder Transaction.zero = (.nil, some (.codec 1)) ∧
    Transaction.zero.MarshalJSON sampleEncoder = (none, some (.codec 1)) := by
  refine ⟨by decide, ?_, by decide,
    (marshal_wraps_payload sampleEncoder Transaction.zero).2 .nil (.codec 1) (by decide)⟩
  obtain ⟨out, members, h1, -, -, h4, -⟩ :=
    (marshal_wraps_payload sampleEncoder sampleTransaction).1 (.slice [10, 12, 3] []) (by decide)
  rw [h1, (h4 [10, 12, 3] [] rfl).1]
  decide

/-- What acceptance by `UnmarshalJSON` amounts to: when it returns no error,
it has called `DecodeTransaction` once, with a non-empty payload, the call has
returned no error and the receiver is what the call left. The method checks
nothing about the decoded record itself. -/
theorem unmarshal_accept_from_decoder (DecodeTransaction : Decoder) (t : Transaction)
    (data : List Byte)
    (haccept : (t.UnmarshalJSON DecodeTransaction data).err = none) :
    ∃ payload, payload ≠ [] ∧
      (t.UnmarshalJSON DecodeTransaction data).decodeCalls = [payload] ∧
      (DecodeTransaction payload t).1 = none ∧
      (t.UnmarshalJSON DecodeTransaction data).t = (DecodeTransaction payload t).2 := by
  unfold Transaction.UnmarshalJSON at haccept ⊢
  split at haccept
  · simp at haccept
  · rename_i wrapper heq
    by_cases hlen : wrapper.D.len = 0
    · rw [if_pos hlen] at haccept; simp at haccept
    · rw [if_neg hlen] at haccept
      simp only [if_neg hlen]
      refine ⟨wrapper.D.elems, ?_, rfl, haccept, rfl⟩
      intro hnil
      exact hlen (by simp [Bytes.len, hnil])

/-- C9: when `EncodeTransaction t` returns the bytes `raw` without error and
`raw` is not empty, `UnmarshalJSON` on the output of `t.MarshalJSON()` calls
`DecodeTransaction` once, with exactly `raw`, and returns its result; so when
`DecodeTransaction` turns `raw` back into `t`, `UnmarshalJSON` yields `t`.
When `raw` is empty, `MarshalJSON` succeeds and `UnmarshalJSON` rejects its
output. -/
theorem wire_round_trip (EncodeTransaction : Encoder) (DecodeTransaction : Decoder)
    (t target : Transaction) (raw : Bytes) (h : EncodeTransaction t = (raw, none)) :
    t.MarshalJSON EncodeTransaction = (some (jsonMarshal ⟨raw⟩), none) ∧
    (raw.elems ≠ [] →
      target.UnmarshalJSON DecodeTransaction (jsonMarshal ⟨raw⟩) =
        ⟨(DecodeTransaction raw.elems target).1, (DecodeTransaction raw.elems target).2,
          [raw.elems]⟩ ∧
      (DecodeTransaction raw.elems target = (none, t) →
        (target.UnmarshalJSON DecodeTransaction (jsonMarshal ⟨raw⟩)).err = none ∧
        (target.UnmarshalJSON DecodeTransaction (jsonMarshal ⟨raw⟩)).t = t)) ∧
    (raw.elems = [] →
      target.UnmarshalJSON DecodeTransaction (jsonMarshal ⟨raw⟩) =
        ⟨some (.errorf "compressed data is empty"), target, []⟩) := by
  refine ⟨?_, fun hne => ?_, fun hnil => ?_⟩
  · simp only [Transaction.MarshalJSON, h]
  · have e := unmarshal_jsonMarshal DecodeTransaction target raw
    rw [if_neg hne] at e
    refine ⟨e, fun hdec => ?_⟩
    rw [e, hdec]
    exact ⟨rfl, rfl⟩
  · have e := unmarshal_jsonMarshal DecodeTransaction target raw
    rw [if_pos hnil] at e
    exact e

/-- Witness of C9: the example codec on the example record, decoded into it. -/
theorem wire_round_trip_witness :
    sampleEncoder sampleTransaction = (.slice [10, 12, 3] [], none) ∧
    sampleTransaction.MarshalJSON sampleEncoder =
      (some (jsonMarshal ⟨.slice [10, 12, 3] []⟩), none) ∧
    sampleTransaction.UnmarshalJSON sampleDecoder (jsonMarshal ⟨.slice [10, 12, 3] []⟩) =
      ⟨none, sampleTransaction, [[10, 12, 3]]⟩ :=
  ⟨by decide,
    (wire_round_trip sampleEncoder sampleDecoder sampleTransaction sampleTransaction
      (.slice [10, 12, 3] []) (by decide)).1,
    ((wire_round_trip sampleEncoder sampleDecoder sampleTransaction sampleTransaction
      (.slice [10, 12, 3] []) (by decide)).2.1 (by decide)).1.trans (by decide)⟩

/-- C10: routes of different message kinds never collide. The eighteen
constant routes are pairwise distinct; none of them is the Transaction route,
the TRX route of any identifier (`*server.TRX.` followed by its text form) or
the reply route of any identifier; and a TRX route is never a reply route
(nor the Transaction route a TRX or reply route). -/
theorem routes_never_collide (m1 : GetStatus) (m2 : Peek) (m3 : Produce) (m4 : ConsumeSpace)
    (m5 : ConsumeSegment) (m6 : GetSpaces) (m7 : GetSegments) (m8 : EnumerateSpace)
    (m9 : EnumerateSegment) (m10 : CheckSpaceOffset) (m11 : CheckSegmentOffset)
    (m12 : Commit) (m13 : Reconcile) (m14 : Rollback) (m15 : Synchronize)
    (m16 : QuorumChanged) (m17 : NodeHeartbeat) (m18 : NodeShutdown)
    (t : Transaction) (x : TRX) (b : UUID) (a : ACK) (n : NACK) :
    [m1.GetRoute, m2.GetRoute, m3.GetRoute, m4.GetRoute, m5.GetRoute, m6.GetRoute,
      m7.GetRoute, m8.GetRoute, m9.GetRoute, m10.GetRoute, m11.GetRoute, m12.GetRoute,
      m13.GetRoute, m14.GetRoute, m15.GetRoute, m16.GetRoute, m17.GetRoute, m18.GetRoute]
      = ["get_node_count", "peek", "produce", "consume_space", "consume_segment",
        "get_spaces", "get_segments", "enumerate_space", "enumerate_segment",
        "check_space_offset", "check_segment_offset", "trx.commit", "trx.reconcile",
        "trx.rollback", "node.synchronize", "node.quorum_changed", "node.healthcheck",
        "node.shutdown"] ∧
    List.Pairwise (fun r s => r ≠ s)
      [m1.GetRoute, m2.GetRoute, m3.GetRoute, m4.GetRoute, m5.GetRoute, m6.GetRoute,
        m7.GetRoute, m8.GetRoute, m9.GetRoute, m10.GetRoute, m11.GetRoute, m12.GetRoute,
        m13.GetRoute, m14.GetRoute, m15.GetRoute, m16.GetRoute, m17.GetRoute, m18.GetRoute] ∧
    (∀ r ∈ [m1.GetRoute, m2.GetRoute, m3.GetRoute, m4.GetRoute, m5.GetRoute, m6.GetRoute,
        m7.GetRoute, m8.GetRoute, m9.GetRoute, m10.GetRoute, m11.GetRoute, m12.GetRoute,
        m13.GetRoute, m14.GetRoute, m15.GetRoute, m16.GetRoute, m17.GetRoute, m18.GetRoute],
      r ≠ t.GetRoute ∧ r ≠ x.GetRoute ∧ r ≠ GetReplyRoute b ∧ r ≠ a.GetRoute ∧
        r ≠ n.GetRoute) ∧
    x.GetRoute = "*server.TRX." ++ x.ID.String ∧
    x.GetRoute ≠ GetReplyRoute b ∧ x.GetRoute ≠ a.GetRoute ∧ x.GetRoute ≠ n.GetRoute ∧
    t.GetRoute ≠ x.GetRoute ∧ t.GetRoute ≠ GetReplyRoute b := by
  have hx : ∀ u v : UUID, "*server.TRX." ++ u.String ≠ "reply." ++ v.String := fun u v =>
    append_ne_append_of_head _ _ _ _ (by decide) (by decide) (by decide)
  simp only [GetStatus.GetRoute, Peek.GetRoute, Produce.GetRoute, ConsumeSpace.GetRoute,
    ConsumeSegment.GetRoute, GetSpaces.GetRoute, GetSegments.GetRoute, EnumerateSpace.GetRoute,
    EnumerateSegment.GetRoute, CheckSpaceOffset.GetRoute, CheckSegmentOffset.GetRoute,
    Commit.GetRoute, Reconcile.GetRoute, Rollback.GetRoute, Synchronize.GetRoute,
    QuorumChanged.GetRoute, NodeHeartbeat.GetRoute, NodeShutdown.GetRoute,
    Transaction.GetRoute, TRX.GetRoute, ACK.GetRoute, NACK.GetRoute, GetReplyRoute]
  refine ⟨trivial, by decide, ?_, trivial, hx _ _, hx _ _, hx _ _,
    ne_append_of_no_match _ _ _ (by decide), ne_append_of_no_match _ _ _ (by decide)⟩
  intro r hr
  simp only [List.mem_cons, List.mem_singleton, List.not_mem_nil, or_false] at hr
  rcases hr with rfl | rfl | rfl | rfl | rfl | rfl | rfl | rfl | rfl | rfl | rfl | rfl | rfl |
    rfl | rfl | rfl | rfl | rfl <;>
  exact ⟨by decide, ne_append_of_no_match _ _ _ (by decide),
    ne_append_of_no_match _ _ _ (by decide), ne_append_of_no_match _ _ _ (by decide),
    ne_append_of_no_match _ _ _ (by decide)⟩

end Server
